import Mathlib

/-!
# testrument: event stream, attach / detach, broadcast worker, WaitFor

A shallow embedding of `writer.go` and `attach.go`.

* Pointers to pipes are natural numbers (pointer identity is equality of numbers).
* The mutable `EventStream` and the pipes it talks to are passed explicitly: every
  method takes the stream and a `World` and returns the new ones.
* A Go run-time panic is the `Except.error` result.
* What the consumers do with their pipes is not code of this repository: it is the
  parameter `env`, which says for each write attempt whether the reader takes the whole
  chunk, closes the pipe part-way, or stops reading so that the write never returns.
* The broadcast worker is embedded per scanned line (`EventStream.writerPass`, the
  body of the `for scanner.Scan()` loop) and as the loop over the scanned lines
  (`EventStream.writer`). The write goroutine of a pass either finishes, and the
  `sig` case of the select is taken, or is stuck in a write, and the 500ms timer case
  is taken; in both cases the loop goes on to the next line.
-/

set_option autoImplicit false

namespace Testrument

/-! ## Pipes and the multi-writer of the Go library -/

/-- A sink is the writer end of an `io.Pipe`; its identity is the pipe's identity. -/
abbrev Sink := Nat

/-- Byte strings (`[]byte`); the line terminator is the single byte 10. -/
abbrev Bytes := List Nat

/-- Run-time panics the embedded code can raise. -/
inductive Panic where
  | indexOutOfRange (i len : Nat)
  | nilDereference
  | typeAssertion
  deriving DecidableEq, Repr

/-- Everything outside the `EventStream` struct that the code reads or changes.
`closed`: the sink pipes that are closed; `recv`: the writes to sink pipes that
delivered bytes, each with the bytes the reader took, oldest first; `tick`: how many
pipe writes have been attempted; `pipes`: how many internal pipes `attach` has
created, each with its own `writer` goroutine; `logged`: what the loggers wrote into
the internal pipes, oldest first; `nextSink`: the next pipe `NewAttach` gets from
`io.Pipe()`. -/
structure World where
  closed : List Sink
  recv : List (Sink × Bytes)
  tick : Nat
  pipes : Nat
  logged : List (Nat × Bytes)
  nextSink : Nat
  deriving DecidableEq, Repr

/-- A world in which nothing has happened yet. -/
def World.empty : World :=
  { closed := [], recv := [], tick := 0, pipes := 0, logged := [], nextSink := 0 }

/-- The chunks written to sink `s` so far, oldest first. -/
def World.writesTo (g : World) (s : Sink) : List Bytes :=
  (g.recv.filter (fun e => e.1 == s)).map Prod.snd

/-- The bytes sink `s` has received so far. -/
def World.received (g : World) (s : Sink) : Bytes :=
  (g.writesTo s).flatten

/-- What the reader of an open pipe does during one write: `ok`, it takes the whole
chunk; `fails n`, it takes `n` bytes and closes its end, so the write returns an
error; `blocks n`, it takes `n` bytes and stops reading, so the write never returns. -/
inductive Outcome where
  | ok
  | fails (n : Nat)
  | blocks (n : Nat)
  deriving DecidableEq, Repr

/-- How a call of `Write` ends: it returns without error, returns an error, or does
not return. -/
inductive Written where
  | done
  | error
  | stuck
  deriving DecidableEq, Repr

/-- `(*io.PipeWriter).Write`. On a closed pipe nothing is delivered and an error is
returned. On an open pipe the reader decides: `env` gives its behaviour for this
attempt (attempts are numbered by `tick`). A reader that takes the whole of a
non-empty chunk lets the write return without error whatever it does afterwards. -/
def pipeWrite (env : Nat → Outcome) (s : Sink) (p : Bytes) (g : World) : World × Written :=
  let g0 := { g with tick := g.tick + 1 }
  if s ∈ g.closed then (g0, .error)
  else
    match env g.tick with
    | .ok => ({ g0 with recv := g0.recv ++ [(s, p)] }, .done)
    | .fails n =>
      if p.length ≤ n ∧ p ≠ [] then ({ g0 with recv := g0.recv ++ [(s, p)] }, .done)
      else ({ g0 with recv := g0.recv ++ [(s, p.take n)], closed := s :: g0.closed }, .error)
    | .blocks n =>
      if p.length ≤ n ∧ p ≠ [] then ({ g0 with recv := g0.recv ++ [(s, p)] }, .done)
      else ({ g0 with recv := g0.recv ++ [(s, p.take n)] }, .stuck)

/-- `(*io.PipeWriter).Close`: marks the pipe closed; closing twice changes nothing. -/
def pipeClose (s : Sink) (g : World) : World :=
  if s ∈ g.closed then g else { g with closed := s :: g.closed }

/-- The value `io.MultiWriter` returns: it holds its own copy of the writer list. -/
structure multiWriter where
  writers : List Sink
  deriving DecidableEq, Repr

/-- `io.MultiWriter(writers...)`. -/
def MultiWriter (writers : List Sink) : multiWriter :=
  { writers := writers }

/-- The loop of `(*multiWriter).Write`: the writers are written to in list order; the
first error ends the operation, and a write that does not return keeps the loop from
reaching the writers after it. -/
def writeEach (env : Nat → Outcome) : List Sink → Bytes → World → World × Written
  | [], _, g => (g, .done)
  | s :: rest, p, g =>
    match pipeWrite env s p g with
    | (g1, .done) => writeEach env rest p g1
    | (g1, .error) => (g1, .error)
    | (g1, .stuck) => (g1, .stuck)

/-- `(*multiWriter).Write`. -/
def multiWriter.Write (env : Nat → Outcome) (t : multiWriter) (p : Bytes) (g : World) :
    World × Written :=
  writeEach env t.writers p g

/-! ## writer.go -/

/-- The struct `EventStream`. A nil writer, slice or logger is `none`; `log` names the
internal pipe the logger writes to. -/
structure EventStream where
  name : String
  node : String
  pretty : Bool
  out : Option multiWriter
  swapOut : Option multiWriter
  logReaders : Option (List Sink)
  log : Option Nat
  deriving DecidableEq, Repr

/-- `NewEventStream`; `hostname` is the result of `os.Hostname()`, `none` on error. -/
def NewEventStream (name : String) (pretty : Bool) (hostname : Option String) : EventStream :=
  let h := match hostname with
    | some h => h
    | none => "<ERROR-READING>"
  { name := name, node := h, pretty := pretty,
    out := none, swapOut := none, logReaders := none, log := none }

/-- `len(w.logReaders)`; the length of a nil slice is 0. -/
def EventStream.lenReaders (w : EventStream) : Nat :=
  match w.logReaders with
  | none => 0
  | some rs => rs.length

/-- `EventStream.attach`. The first attach creates the internal pipe, the logger and
the first multi-writer and starts a `writer` goroutine on the pipe; a later attach
appends to the list and publishes a new multi-writer in `swapOut`. The returned
error is always nil and is left out. -/
def EventStream.attach (w : EventStream) (out : Sink) (g : World) : EventStream × World :=
  match w.logReaders with
  | none =>
    let logReaders := [out]
    let pw := g.pipes
    ({ w with logReaders := some logReaders, log := some pw,
              out := some (MultiWriter logReaders) },
     { g with pipes := g.pipes + 1 })
  | some rs =>
    let logReaders := rs ++ [out]
    ({ w with logReaders := some logReaders,
              swapOut := some (MultiWriter logReaders) }, g)

/-- The list built at a match at index `i` in the removal loop of
`EventStream.detach`: the elements before `i`, unless `i` is 0, and the elements
after `i`, unless `i` is the last index. -/
def EventStream.newList (rs : List Sink) (i : Nat) : List Sink :=
  let newList : List Sink := []
  let newList := if i ≠ 0 then newList ++ rs.take i else newList
  let newList := if i + 1 ≠ rs.length then newList ++ rs.drop (i + 1) else newList
  newList

/-- The body of the removal loop of `EventStream.detach` at index `i`. The index
expression `w.logReaders[i]` reads the field as it is now. -/
def EventStream.detachBody (out : Sink) (w : EventStream) (i : Nat) :
    Except Panic EventStream :=
  match (w.logReaders.getD [])[i]? with
  | none => .error (.indexOutOfRange i (w.logReaders.getD []).length)
  | some r =>
    if r = out then
      let newList := EventStream.newList (w.logReaders.getD []) i
      .ok { w with logReaders := some newList, swapOut := some (MultiWriter newList) }
    else .ok w

/-- The removal loop of `EventStream.detach` over the indices still to visit. -/
def EventStream.detachLoop (out : Sink) : List Nat → EventStream → Except Panic EventStream
  | [], w => .ok w
  | i :: is, w =>
    match EventStream.detachBody out w i with
    | .error e => .error e
    | .ok w1 => EventStream.detachLoop out is w1

/-- `EventStream.detach`. With exactly one reader attached the argument is closed and
the stream is reset; otherwise the loop `for i := range w.logReaders` runs, its range
fixed by the length of the list on entry. Every sink is a `*io.PipeWriter`, so the
type assertion succeeds and `pr` is not nil. -/
def EventStream.detach (w : EventStream) (out : Sink) (g : World) :
    Except Panic (EventStream × World) :=
  if w.lenReaders = 1 then
    let w1 := { w with log := none }
    let g1 := pipeClose out g
    let w2 := { w1 with logReaders := none }
    let w3 := { w2 with out := none }
    .ok (w3, g1)
  else
    match EventStream.detachLoop out (List.range w.lenReaders) w with
    | .error e => .error e
    | .ok w1 => .ok (w1, g)

/-- How one iteration of the loop of `EventStream.writer` ends: the worker returns
(no listeners), the write goroutine signals on `sig`, or the 500ms timer fires. -/
inductive Pass where
  | exited
  | signalled
  | timedOut
  deriving DecidableEq, Repr

/-- One iteration of the loop of `EventStream.writer` for the scanned `line`. The
goroutine writes the line and then the newline to `w.out` without looking at the
errors and signals on `sig`; when one of its writes does not return it never gets to
what follows, and the select takes the timer case. -/
def EventStream.writerPass (env : Nat → Outcome) (w : EventStream) (line : Bytes)
    (g : World) : EventStream × World × Pass :=
  let w1 := match w.swapOut with
    | some m => { w with out := some m, swapOut := none }
    | none => w
  match w1.out with
  | none => (w1, g, .exited)
  | some m =>
    match m.Write env line g with
    | (g1, .stuck) => (w1, g1, .timedOut)
    | (g1, _) =>
      match m.Write env [10] g1 with
      | (g2, .stuck) => (w1, g2, .timedOut)
      | (g2, _) => (w1, g2, .signalled)

/-- `EventStream.writer` on the lines the scanner yields, with no attach or detach in
between: the loop ends when a pass returns and goes on to the next line both after
the signal and after the timeout. -/
def EventStream.writer (env : Nat → Outcome) :
    EventStream → List Bytes → World → EventStream × World
  | w, [], g => (w, g)
  | w, line :: rest, g =>
    match EventStream.writerPass env w line g with
    | (w1, g1, .exited) => (w1, g1)
    | (w1, g1, .signalled) => EventStream.writer env w1 rest g1
    | (w1, g1, .timedOut) => EventStream.writer env w1 rest g1

/-- The sinks the worker writes the next line to: those of `swapOut` when it is set,
otherwise those of `out`, none when both are nil. -/
def EventStream.targets (w : EventStream) : List Sink :=
  match w.swapOut with
  | some m => m.writers
  | none =>
    match w.out with
    | some m => m.writers
    | none => []

/-! ## Events -/

/-- Modelled from the spec: the type `EventType` with its constants `Info`, `Warning`,
`Metric`, `Error`; its declaration is not among the sources. -/
inductive EventType where
  | Info
  | Warning
  | Metric
  | Error
  deriving DecidableEq, Repr

/-- Modelled from the spec: `EventType.String`, not among the sources; the spec says
the type is serialized as the literal type name, one of Info, Warning, Metric, Error. -/
def EventType.String : EventType → String
  | .Info => "Info"
  | .Warning => "Warning"
  | .Metric => "Metric"
  | .Error => "Error"

/-- A payload value (`interface{}`): a value of the caller, or a slice of values. -/
inductive Value where
  | atom (id : Nat)
  | slice (vs : List Value)

/-- Modelled from the spec: the struct `EventBody`, not among the sources; its fields
are those the composite literal in `emitEvent` sets. -/
structure EventBody where
  Message : String
  Object : List Value

/-- Modelled from the spec: the struct `Event`, not among the sources; its fields are
those the composite literal in `emitEvent` sets (`Type_` is the field `Type`). -/
structure Event where
  Type_ : String
  Name : String
  Time : Nat
  Node : String
  Body : EventBody

/-- The composite literal at the head of `emitEvent`; `now` is `time.Now()` and `v`
is the variadic parameter, the slice of the arguments the caller passed. -/
def EventStream.newEvent (now : Nat) (w : EventStream) (t : EventType) (msg : String)
    (v : List Value) : Event :=
  { Type_ := t.String, Name := w.name, Time := now, Node := w.node,
    Body := { Message := msg, Object := v } }

/-- `EventStream.emitEvent`. `marshal pretty e` is `json.MarshalIndent` or
`json.Marshal`, `none` when it fails; `w.log.Println` writes the text and a newline
into the internal pipe and panics on a nil logger. -/
def EventStream.emitEvent (marshal : Bool → Event → Option Bytes) (now : Nat)
    (w : EventStream) (t : EventType) (msg : String) (v : List Value) (g : World) :
    Except Panic (EventStream × World) :=
  let e := EventStream.newEvent now w t msg v
  match marshal w.pretty e with
  | none => .ok (w, g)
  | some js =>
    match w.log with
    | none => .error .nilDereference
    | some pw => .ok (w, { g with logged := g.logged ++ [(pw, js ++ [10])] })

/-- `EventStream.Error`: the slice `v` of the caller's values is passed on as ONE
argument of `emitEvent` (the call is `w.emitEvent(Error, msg, v)`). -/
def EventStream.Error (marshal : Bool → Event → Option Bytes) (now : Nat)
    (w : EventStream) (msg : String) (v : List Value) (g : World) :
    Except Panic (EventStream × World) :=
  if w.out ≠ none then
    EventStream.emitEvent marshal now w EventType.Error msg [Value.slice v] g
  else .ok (w, g)

/-- `EventStream.Warn`. -/
def EventStream.Warn (marshal : Bool → Event → Option Bytes) (now : Nat)
    (w : EventStream) (msg : String) (v : List Value) (g : World) :
    Except Panic (EventStream × World) :=
  if w.out ≠ none then
    EventStream.emitEvent marshal now w EventType.Warning msg [Value.slice v] g
  else .ok (w, g)

/-- `EventStream.Metric`. -/
def EventStream.Metric (marshal : Bool → Event → Option Bytes) (now : Nat)
    (w : EventStream) (msg : String) (v : List Value) (g : World) :
    Except Panic (EventStream × World) :=
  if w.out ≠ none then
    EventStream.emitEvent marshal now w EventType.Metric msg [Value.slice v] g
  else .ok (w, g)

/-- `EventStream.Info`. -/
def EventStream.Info (marshal : Bool → Event → Option Bytes) (now : Nat)
    (w : EventStream) (msg : String) (v : List Value) (g : World) :
    Except Panic (EventStream × World) :=
  if w.out ≠ none then
    EventStream.emitEvent marshal now w EventType.Info msg [Value.slice v] g
  else .ok (w, g)

/-- One emit call of a producer: which method, the message, the payload values and
the clock reading. -/
structure Call where
  kind : EventType
  msg : String
  payload : List Value
  now : Nat

/-- Dispatch of one producer call to the method of that name. -/
def EventStream.call (marshal : Bool → Event → Option Bytes) (w : EventStream) (c : Call)
    (g : World) : Except Panic (EventStream × World) :=
  match c.kind with
  | .Info => EventStream.Info marshal c.now w c.msg c.payload g
  | .Warning => EventStream.Warn marshal c.now w c.msg c.payload g
  | .Metric => EventStream.Metric marshal c.now w c.msg c.payload g
  | .Error => EventStream.Error marshal c.now w c.msg c.payload g

/-- A sequence of producer calls, one after the other; a panic ends the run. -/
def EventStream.calls (marshal : Bool → Event → Option Bytes) :
    List Call → EventStream → World → Except Panic (EventStream × World)
  | [], w, g => .ok (w, g)
  | c :: cs, w, g =>
    match EventStream.call marshal w c g with
    | .error e => .error e
    | .ok (w1, g1) => EventStream.calls marshal cs w1 g1

/-! ## attach.go -/

/-- The struct `Attach`: the two ends of one pipe. The pointer `eventWriter` is left
out, the stream being passed explicitly. -/
structure Attach where
  Reader : Sink
  Writer : Sink
  deriving DecidableEq, Repr

/-- `NewAttach`: a new pipe from `io.Pipe()`, whose writer end is attached. -/
def NewAttach (ew : EventStream) (g : World) : Attach × EventStream × World :=
  let p := g.nextSink
  let g1 := { g with nextSink := g.nextSink + 1 }
  let attach : Attach := { Reader := p, Writer := p }
  let r := ew.attach attach.Writer g1
  (attach, r.1, r.2)

/-- `Attach.Detach`. -/
def Attach.Detach (a : Attach) (ew : EventStream) (g : World) :
    Except Panic (EventStream × World) :=
  ew.detach a.Writer g

/-- A decoded JSON value (`interface{}` as `encoding/json` fills it in). -/
inductive JSON where
  | null
  | bool (b : Bool)
  | number (n : Int)
  | string (s : String)
  | array (xs : List JSON)
  | object (kvs : List (String × JSON))

/-- A decoded record, `map[string]interface{}`. -/
abbrev Record := List (String × JSON)

/-- The map index expression `m[k]`: nil when the key is absent. -/
def index (m : Record) (k : String) : JSON :=
  (m.lookup k).getD JSON.null

/-- The comparison `x == s` of an `interface{}` with a string. -/
def JSON.eqString : JSON → String → Bool
  | .string s, t => s == t
  | _, _ => false

/-- How the scan goroutine of `WaitFor` ends on the decode results it gets. -/
inductive Scan where
  | found (v : Record)
  | exited
  | waiting
  | panicked

/-- The scan goroutine of `Attach.WaitFor` on the results of the successive
`dec.Decode` calls (`none`: a decode error). When the results are used up the
goroutine is still waiting in `Decode`. -/
def scan (t : EventType) (evt : String) : List (Option Record) → Scan
  | [] => .waiting
  | none :: _ => .exited
  | some v :: rest =>
    if (index v "Type").eqString t.String then
      match index v "Body" with
      | .object b =>
        if (index b "Msg").eqString evt then .found v
        else scan t evt rest
      | _ => .panicked
    else scan t evt rest

/-- `Attach.WaitFor`. `stream r` is what the decoder yields on reader `r`, and `tout`
counts the decodes that complete before the timer fires. The results are the named
results `v` and `e`; the `found` case of the select declares a variable of its own. -/
def Attach.WaitFor (stream : Sink → List (Option Record)) (a : Attach) (t : EventType)
    (evt : String) (tout : Nat) : Except Panic (Option Record × Option String) :=
  let v : Option Record := none
  let e : Option String := none
  match scan t evt ((stream a.Reader).take tout) with
  | .found _ => .ok (v, e)
  | .panicked => .error .typeAssertion
  | _ =>
    let v : Option Record := none
    let e := some "Event Search timed out."
    .ok (v, e)

/-! ## Runs of attach and detach -/

/-- Attaching the sinks of a list, first to last. -/
def attachAll : List Sink → EventStream → World → EventStream × World
  | [], w, g => (w, g)
  | s :: rest, w, g => attachAll rest (w.attach s g).1 (w.attach s g).2

/-- An attach or a detach call on a sink. -/
inductive Op where
  | attach (s : Sink)
  | detach (s : Sink)
  deriving DecidableEq, Repr

/-- A sequence of attach and detach calls, one after the other; a panic ends it. -/
def run : List Op → EventStream → World → Except Panic (EventStream × World)
  | [], w, g => .ok (w, g)
  | .attach s :: rest, w, g => run rest (w.attach s g).1 (w.attach s g).2
  | .detach s :: rest, w, g =>
    match w.detach s g with
    | .error e => .error e
    | .ok (w1, g1) => run rest w1 g1

/-- The writes the worker is expected to make for a sequence of lines: for each line,
in order, the line to every sink in list order and then the newline to every sink. -/
def expectedWrites (sinks : List Sink) (lines : List Bytes) : List (Sink × Bytes) :=
  lines.flatMap (fun L => sinks.map (fun s => (s, L)) ++ sinks.map (fun s => (s, [10])))

/-- The stream of the scenarios below. -/
def svc : EventStream := NewEventStream "svc" false (some "host")

/-! ## Emits without a listener -/

theorem EventStream.call_of_out_none (marshal : Bool → Event → Option Bytes)
    (w : EventStream) (c : Call) (g : World) (h : w.out = none) :
    EventStream.call marshal w c g = .ok (w, g) := by
  unfold EventStream.call
  cases c.kind <;>
    simp [EventStream.Info, EventStream.Warn, EventStream.Metric, EventStream.Error, h]

theorem EventStream.calls_of_out_none (marshal : Bool → Event → Option Bytes)
    (cs : List Call) (w : EventStream) (g : World) (h : w.out = none) :
    EventStream.calls marshal cs w g = .ok (w, g) := by
  induction cs with
  | nil => rfl
  | cons c cs ih =>
    simp only [EventStream.calls, EventStream.call_of_out_none marshal w c g h, ih]

/-- C9: on a newly created stream with no attach, any sequence of Info, Warn, Metric
and Error calls, whatever the messages, payloads and marshaller, returns without a
panic, leaves the stream as it was and leaves the world as it was: no line reaches an
internal pipe, nothing is written anywhere. -/
theorem calls_before_attach_noop (marshal : Bool → Event → Option Bytes)
    (name : String) (pretty : Bool) (hostname : Option String) (cs : List Call) (g : World) :
    EventStream.calls marshal cs (NewEventStream name pretty hostname) g
      = .ok (NewEventStream name pretty hostname, g) :=
  EventStream.calls_of_out_none marshal cs _ g rfl

/-! ## Payload of an emitted event -/

/-- C10: on the stream of a first `NewAttach`, the call `Info("ready", v1, v2)` hands
the marshaller an event whose type, name, node and message are as expected but whose
`Body.Object` has ONE element, the slice of the two payload values, not the two
values; what the marshaller returns goes, with a newline, into the internal pipe. -/
theorem Info_wraps_payload_in_one_element (marshal : Bool → Event → Option Bytes) :
    EventStream.Info marshal 7 (NewAttach svc World.empty).2.1 "ready"
        [Value.atom 1, Value.atom 2] (NewAttach svc World.empty).2.2
      = (match marshal false
            { Type_ := "Info", Name := "svc", Time := 7, Node := "host",
              Body := { Message := "ready",
                        Object := [Value.slice [Value.atom 1, Value.atom 2]] } } with
         | none => .ok ((NewAttach svc World.empty).2.1, (NewAttach svc World.empty).2.2)
         | some js =>
           .ok ((NewAttach svc World.empty).2.1,
                { closed := [], recv := [], tick := 0, pipes := 1, logged := [(0, js ++ [10])],
                  nextSink := 1 }))
      ∧ ([Value.slice [Value.atom 1, Value.atom 2]] : List Value).length = 1 := by
  refine ⟨?_, rfl⟩
  have hev : marshal (NewAttach svc World.empty).2.1.pretty
      (EventStream.newEvent 7 (NewAttach svc World.empty).2.1 EventType.Info "ready"
        [Value.slice [Value.atom 1, Value.atom 2]])
      = marshal false
          { Type_ := "Info", Name := "svc", Time := 7, Node := "host",
            Body := { Message := "ready",
                      Object := [Value.slice [Value.atom 1, Value.atom 2]] } } := rfl
  simp only [EventStream.Info, EventStream.emitEvent]
  rw [if_pos (by decide), hev]
  cases marshal false _ <;> rfl

/-! ## WaitFor -/

theorem scan_found_matches (t : EventType) (evt : String) (input : List (Option Record))
    (v : Record) (h : scan t evt input = Scan.found v) :
    some v ∈ input ∧ (index v "Type").eqString t.String = true ∧
      ∃ b, index v "Body" = JSON.object b ∧ (index b "Msg").eqString evt = true := by
  induction input with
  | nil => simp [scan] at h
  | cons x rest ih =>
    cases x with
    | none => simp [scan] at h
    | some u =>
      simp only [scan] at h
      split at h
      · rename_i hT
        split at h
        · rename_i b hB
          split at h
          · rename_i hM
            cases h
            exact ⟨List.mem_cons_self _ _, hT, b, hB, hM⟩
          · obtain ⟨h1, h2⟩ := ih h
            exact ⟨List.mem_cons_of_mem _ h1, h2⟩
        · cases h
      · obtain ⟨h1, h2⟩ := ih h
        exact ⟨List.mem_cons_of_mem _ h1, h2⟩

/-- C4: whenever the scan decodes, before the timer fires, a record `v` whose Type is
`t.String()` and whose Body.Msg is `evt`, `WaitFor` returns a nil error together with
a NIL value: the record found is not returned. -/
theorem WaitFor_found_returns_nil (stream : Sink → List (Option Record)) (a : Attach)
    (t : EventType) (evt : String) (tout : Nat) (v : Record)
    (h : scan t evt ((stream a.Reader).take tout) = Scan.found v) :
    Attach.WaitFor stream a t evt tout = .ok (none, none) ∧
      some v ∈ stream a.Reader ∧ (index v "Type").eqString t.String = true ∧
      ∃ b, index v "Body" = JSON.object b ∧ (index b "Msg").eqString evt = true := by
  refine ⟨?_, ?_⟩
  · simp [Attach.WaitFor, h]
  · obtain ⟨h1, h2⟩ := scan_found_matches t evt _ v h
    exact ⟨List.mem_of_mem_take h1, h2⟩

theorem WaitFor_found_returns_nil_witness :
    Attach.WaitFor
        (fun _ => [some [("Type", JSON.string "Info"),
                         ("Body", JSON.object [("Msg", JSON.string "ready")])]])
        { Reader := 0, Writer := 0 } EventType.Info "ready" 1 = .ok (none, none) :=
  (WaitFor_found_returns_nil
    (fun _ => [some [("Type", JSON.string "Info"),
                     ("Body", JSON.object [("Msg", JSON.string "ready")])]])
    { Reader := 0, Writer := 0 } EventType.Info "ready" 1
    [("Type", JSON.string "Info"), ("Body", JSON.object [("Msg", JSON.string "ready")])]
    rfl).1

/-! ## Broadcast of one line -/

theorem pipeWrite_ok (env : Nat → Outcome) (s : Sink) (p : Bytes) (g : World)
    (hs : s ∉ g.closed) (henv : env g.tick = Outcome.ok) :
    pipeWrite env s p g
      = ({ g with tick := g.tick + 1, recv := g.recv ++ [(s, p)] }, Written.done) := by
  simp [pipeWrite, hs, henv]

theorem writeEach_open (env : Nat → Outcome) (p : Bytes) (sinks : List Sink) (g : World)
    (hopen : ∀ s ∈ sinks, s ∉ g.closed) (henv : ∀ t, g.tick ≤ t → env t = Outcome.ok) :
    writeEach env sinks p g
      = ({ g with tick := g.tick + sinks.length,
                  recv := g.recv ++ sinks.map (fun s => (s, p)) }, Written.done) := by
  induction sinks generalizing g with
  | nil => simp [writeEach]
  | cons s rest ih =>
    have hs : s ∉ g.closed := hopen s (List.mem_cons_self _ _)
    have hrest : ∀ x ∈ rest, x ∉ g.closed := fun x hx => hopen x (List.mem_cons_of_mem _ hx)
    rw [writeEach, pipeWrite_ok env s p g hs (henv _ (Nat.le_refl _))]
    simp only []
    rw [ih { g with tick := g.tick + 1, recv := g.recv ++ [(s, p)] } hrest
      (fun t ht => henv t (Nat.le_of_succ_le ht))]
    simp [Nat.add_assoc, Nat.add_comm 1]

theorem writeEach_twice_open (env : Nat → Outcome) (p q : Bytes) (sinks : List Sink)
    (g : World) (hopen : ∀ s ∈ sinks, s ∉ g.closed)
    (henv : ∀ t, g.tick ≤ t → env t = Outcome.ok) :
    writeEach env sinks p g
        = ({ g with tick := g.tick + sinks.length,
                    recv := g.recv ++ sinks.map (fun s => (s, p)) }, Written.done)
    ∧ writeEach env sinks q
          { g with tick := g.tick + sinks.length,
                   recv := g.recv ++ sinks.map (fun s => (s, p)) }
        = ({ g with tick := g.tick + sinks.length + sinks.length,
                    recv := g.recv ++ sinks.map (fun s => (s, p))
                      ++ sinks.map (fun s => (s, q)) }, Written.done) := by
  refine ⟨writeEach_open env p sinks g hopen henv, ?_⟩
  rw [writeEach_open env q sinks
    { g with tick := g.tick + sinks.length, recv := g.recv ++ sinks.map (fun s => (s, p)) }
    hopen (fun t ht => henv t (Nat.le_trans (Nat.le_add_right _ _) ht))]

theorem filter_map_of_not_mem (p : Bytes) (sinks : List Sink) (s : Sink) (h : s ∉ sinks) :
    ((sinks.map (fun x => (x, p))).filter (fun e => e.1 == s)).map Prod.snd = [] := by
  induction sinks with
  | nil => rfl
  | cons x rest ih =>
    have hx : x ≠ s := fun e => h (e ▸ List.mem_cons_self _ _)
    have hr : s ∉ rest := fun e => h (List.mem_cons_of_mem _ e)
    simp [List.filter_cons, hx, ih hr]

theorem filter_map_of_mem (p : Bytes) (sinks : List Sink) (s : Sink) (h : s ∈ sinks)
    (hnd : sinks.Nodup) :
    ((sinks.map (fun x => (x, p))).filter (fun e => e.1 == s)).map Prod.snd = [p] := by
  induction sinks with
  | nil => cases h
  | cons x rest ih =>
    have hx : x ∉ rest := (List.nodup_cons.mp hnd).1
    have hr : rest.Nodup := (List.nodup_cons.mp hnd).2
    by_cases hxs : x = s
    · subst hxs
      have := filter_map_of_not_mem p rest x hx
      simp [List.filter_cons, this]
    · have hs : s ∈ rest := by
        cases h with
        | head => exact absurd rfl hxs
        | tail _ h1 => exact h1
      simp [List.filter_cons, hxs, ih hs hr]

theorem EventStream.writerPass_open (env : Nat → Outcome) (sinks : List Sink)
    (hne : sinks ≠ []) (w : EventStream) (L : Bytes) (g : World)
    (ht : w.targets = sinks) (hopen : ∀ s ∈ sinks, s ∉ g.closed)
    (henv : ∀ t, g.tick ≤ t → env t = Outcome.ok) :
    w.writerPass env L g
      = ({ w with out := some (MultiWriter sinks), swapOut := none },
         { g with tick := g.tick + sinks.length + sinks.length,
                  recv := g.recv ++ sinks.map (fun s => (s, L))
                    ++ sinks.map (fun s => (s, [10])) },
         Pass.signalled) := by
  obtain ⟨h1, h2⟩ := writeEach_twice_open env L [10] sinks g hopen henv
  unfold EventStream.targets at ht
  unfold EventStream.writerPass
  cases hs : w.swapOut with
  | some m =>
    rw [hs] at ht
    simp only [] at ht
    cases m with
    | mk ws =>
      simp only [] at ht
      subst ht
      simp only [multiWriter.Write, h1, h2, MultiWriter]
  | none =>
    rw [hs] at ht
    cases ho : w.out with
    | none =>
      rw [ho] at ht
      exact absurd ht.symm hne
    | some m =>
      rw [ho] at ht
      simp only [] at ht
      cases m with
      | mk ws =>
        simp only [] at ht
        subst ht
        simp only [ho, multiWriter.Write, h1, h2, MultiWriter]
        cases w
        simp_all

theorem attachAll_of_some (more : List Sink) (hmore : more ≠ []) (w : EventStream) (g : World)
    (rs : List Sink) (h : w.logReaders = some rs) :
    attachAll more w g
      = ({ w with logReaders := some (rs ++ more),
                  swapOut := some (MultiWriter (rs ++ more)) }, g) := by
  induction more generalizing w rs with
  | nil => exact absurd rfl hmore
  | cons s rest ih =>
    cases rest with
    | nil => simp [attachAll, EventStream.attach, h]
    | cons s2 rest2 =>
      have h1 : (w.attach s g).1.logReaders = some (rs ++ [s]) := by
        simp [EventStream.attach, h]
      have h2 : (w.attach s g).2 = g := by simp [EventStream.attach, h]
      rw [attachAll, h2, ih (by simp) _ _ h1]
      simp [EventStream.attach, h]

theorem attachAll_new (name : String) (pretty : Bool) (hostname : Option String)
    (s1 : Sink) (rest : List Sink) (g : World) :
    (attachAll (s1 :: rest) (NewEventStream name pretty hostname) g).1.targets = s1 :: rest
    ∧ (attachAll (s1 :: rest) (NewEventStream name pretty hostname) g).1.logReaders
        = some (s1 :: rest)
    ∧ (attachAll (s1 :: rest) (NewEventStream name pretty hostname) g).1.out
        = some (MultiWriter [s1])
    ∧ (attachAll (s1 :: rest) (NewEventStream name pretty hostname) g).2
        = { g with pipes := g.pipes + 1 } := by
  cases rest with
  | nil =>
    simp [attachAll, EventStream.attach, NewEventStream, EventStream.targets, MultiWriter]
  | cons s2 rest2 =>
    have h1 : ((NewEventStream name pretty hostname).attach s1 g).1.logReaders = some [s1] := by
      simp [EventStream.attach, NewEventStream]
    rw [attachAll, attachAll_of_some (s2 :: rest2) (by simp) _ _ _ h1]
    simp [EventStream.attach, NewEventStream, EventStream.targets, MultiWriter]

theorem expectedWrites_cons (sinks : List Sink) (B : Bytes) (lines : List Bytes) :
    expectedWrites sinks (B :: lines)
      = sinks.map (fun s => (s, B)) ++ sinks.map (fun s => (s, [10]))
          ++ expectedWrites sinks lines := by
  simp [expectedWrites]

theorem EventStream.writer_open (env : Nat → Outcome) (sinks : List Sink) (hne : sinks ≠ [])
    (lines : List Bytes) :
    ∀ (w : EventStream) (g : World), w.targets = sinks →
      (∀ s ∈ sinks, s ∉ g.closed) → (∀ t, g.tick ≤ t → env t = Outcome.ok) →
      (EventStream.writer env w lines g).1.targets = sinks
      ∧ (EventStream.writer env w lines g).1.logReaders = w.logReaders
      ∧ (EventStream.writer env w lines g).2.closed = g.closed
      ∧ g.tick ≤ (EventStream.writer env w lines g).2.tick
      ∧ (EventStream.writer env w lines g).2.recv = g.recv ++ expectedWrites sinks lines
      ∧ ∀ L, EventStream.writer env w (lines ++ [L]) g
          = (((EventStream.writer env w lines g).1.writerPass env L
                (EventStream.writer env w lines g).2).1,
             ((EventStream.writer env w lines g).1.writerPass env L
                (EventStream.writer env w lines g).2).2.1) := by
  induction lines with
  | nil =>
    intro w g ht hopen henv
    refine ⟨ht, rfl, rfl, Nat.le_refl _, by simp [EventStream.writer, expectedWrites], ?_⟩
    intro L
    simp only [List.nil_append, EventStream.writer,
      EventStream.writerPass_open env sinks hne w L g ht hopen henv]
  | cons B rest ih =>
    intro w g ht hopen henv
    have hpass := EventStream.writerPass_open env sinks hne w B g ht hopen henv
    have hstep : ∀ more, EventStream.writer env w (B :: more) g
        = EventStream.writer env
            { w with out := some (MultiWriter sinks), swapOut := none } more
            { g with tick := g.tick + sinks.length + sinks.length,
                     recv := g.recv ++ sinks.map (fun s => (s, B))
                       ++ sinks.map (fun s => (s, [10])) } := by
      intro more
      rw [EventStream.writer, hpass]
    obtain ⟨i1, i2, i3, i4, i5, i6⟩ :=
      ih { w with out := some (MultiWriter sinks), swapOut := none }
        { g with tick := g.tick + sinks.length + sinks.length,
                 recv := g.recv ++ sinks.map (fun s => (s, B))
                   ++ sinks.map (fun s => (s, [10])) }
        (by simp [EventStream.targets, MultiWriter]) hopen
        (fun t ht2 => henv t (by simp only [] at ht2; omega))
    rw [hstep rest]
    refine ⟨i1, i2, i3, ?_, ?_, ?_⟩
    · simp only [] at i4; omega
    · rw [i5, expectedWrites_cons]; simp
    · intro L
      rw [List.cons_append, hstep (rest ++ [L])]
      exact i6 L

/-- C1: sinks s1..sn (n >= 1), distinct and open, are attached in that order to a new
stream, with no detach, and every write to a sink succeeds. Then for every line L the
worker reads, after any lines `before` it has already read, the pass for L ends with
the signal of the write goroutine and writes, in this order, L to s1..sn and then the
newline to s1..sn, so that each sink gets exactly the bytes of L followed by one byte
10; the worker loop on `before ++ [L]` is the loop on `before` followed by this pass;
the lines before were delivered the same way; and after the pass the worker writes to
s1..sn, `swapOut` is nil and the listener list is s1..sn. -/
theorem attached_sinks_receive_line (env : Nat → Outcome) (name : String) (pretty : Bool)
    (hostname : Option String) (g : World) (s1 : Sink) (rest : List Sink)
    (before : List Bytes) (L : Bytes)
    (hnd : (s1 :: rest).Nodup) (hopen : ∀ s ∈ s1 :: rest, s ∉ g.closed)
    (henv : ∀ t, g.tick ≤ t → env t = Outcome.ok) :
    ∃ w0 g0 w1 g1 w2 g2,
      attachAll (s1 :: rest) (NewEventStream name pretty hostname) g = (w0, g0)
      ∧ EventStream.writer env w0 before g0 = (w1, g1)
      ∧ w1.writerPass env L g1 = (w2, g2, Pass.signalled)
      ∧ EventStream.writer env w0 (before ++ [L]) g0 = (w2, g2)
      ∧ g1.recv = g.recv ++ expectedWrites (s1 :: rest) before
      ∧ g2.recv = g1.recv ++ (s1 :: rest).map (fun s => (s, L))
          ++ (s1 :: rest).map (fun s => (s, [10]))
      ∧ g2.closed = g.closed
      ∧ w2.out = some (MultiWriter (s1 :: rest)) ∧ w2.swapOut = none
      ∧ w2.logReaders = some (s1 :: rest)
      ∧ ∀ s ∈ s1 :: rest,
          g2.writesTo s = g1.writesTo s ++ [L, [10]]
          ∧ g2.received s = g1.received s ++ L ++ [10] := by
  obtain ⟨ht, hl, _, hg⟩ := attachAll_new name pretty hostname s1 rest g
  rcases hA : attachAll (s1 :: rest) (NewEventStream name pretty hostname) g with ⟨w0, g0⟩
  rw [hA] at ht hl hg
  simp only [] at ht hl hg
  have hne : s1 :: rest ≠ [] := by simp
  have hopen0 : ∀ s ∈ s1 :: rest, s ∉ g0.closed := by rw [hg]; exact hopen
  have henv0 : ∀ t, g0.tick ≤ t → env t = Outcome.ok := by rw [hg]; exact henv
  obtain ⟨i1, i2, i3, i4, i5, i6⟩ :=
    EventStream.writer_open env (s1 :: rest) hne before w0 g0 ht hopen0 henv0
  rcases hW : EventStream.writer env w0 before g0 with ⟨w1, g1⟩
  simp only [hW] at i1 i2 i3 i4 i5 i6
  have hopen1 : ∀ s ∈ s1 :: rest, s ∉ g1.closed := by rw [i3]; exact hopen0
  have henv1 : ∀ t, g1.tick ≤ t → env t = Outcome.ok :=
    fun t h => henv0 t (Nat.le_trans i4 h)
  have hpass := EventStream.writerPass_open env (s1 :: rest) hne w1 L g1 i1 hopen1 henv1
  refine ⟨w0, g0, w1, g1, _, _, rfl, hW, hpass, ?_, ?_, rfl, ?_, rfl, rfl, ?_, ?_⟩
  · rw [i6 L, hpass]
  · rw [i5, hg]
  · simp only []; rw [i3, hg]
  · simp only []; rw [i2, hl]
  · intro s hs
    have hL := filter_map_of_mem L _ s hs hnd
    have hN := filter_map_of_mem [10] _ s hs hnd
    have hwr : World.writesTo
        { g1 with tick := g1.tick + (s1 :: rest).length + (s1 :: rest).length,
                  recv := g1.recv ++ (s1 :: rest).map (fun s => (s, L))
                    ++ (s1 :: rest).map (fun s => (s, [10])) } s
        = g1.writesTo s ++ [L, [10]] := by
      simp only [World.writesTo, List.filter_append, List.map_append, hL, hN]
      simp
    refine ⟨hwr, ?_⟩
    simp only [World.received, hwr]
    simp

theorem attached_sinks_receive_line_witness :
    ∃ w0 g0 w1 g1 w2 g2,
      attachAll [4, 9] (NewEventStream "svc" false (some "host")) World.empty = (w0, g0)
      ∧ EventStream.writer (fun _ => Outcome.ok) w0 [[97], [98, 99]] g0 = (w1, g1)
      ∧ w1.writerPass (fun _ => Outcome.ok) [120, 121] g1 = (w2, g2, Pass.signalled)
      ∧ EventStream.writer (fun _ => Outcome.ok) w0 ([[97], [98, 99]] ++ [[120, 121]]) g0
          = (w2, g2)
      ∧ g1.recv = World.empty.recv ++ expectedWrites [4, 9] [[97], [98, 99]]
      ∧ g2.recv = g1.recv ++ [4, 9].map (fun s => (s, [120, 121]))
          ++ [4, 9].map (fun s => (s, [10]))
      ∧ g2.closed = World.empty.closed
      ∧ w2.out = some (MultiWriter [4, 9]) ∧ w2.swapOut = none
      ∧ w2.logReaders = some [4, 9]
      ∧ ∀ s ∈ [4, 9],
          g2.writesTo s = g1.writesTo s ++ [[120, 121], [10]]
          ∧ g2.received s = g1.received s ++ [120, 121] ++ [10] :=
  attached_sinks_receive_line (fun _ => Outcome.ok) "svc" false (some "host") World.empty
    4 [9] [[97], [98, 99]] [120, 121] (by decide) (by decide) (fun _ _ => rfl)

/-- C8: with the listener list [1, 2], reached by two attach calls, and sink 1 closed,
so that the write to it fails, one worker pass for the line "x" writes nothing to sink
2, whatever the readers do: the multi-writer stops at the failing sink 1, for the line
and again for the newline, and the sinks after it are never written to. -/
theorem failing_sink_blocks_later_sinks (env : Nat → Outcome) :
    (attachAll [1, 2] svc { World.empty with closed := [1] }).1.targets = [1, 2]
    ∧ ((attachAll [1, 2] svc { World.empty with closed := [1] }).1.writerPass env [120]
        (attachAll [1, 2] svc { World.empty with closed := [1] }).2).2.2 = Pass.signalled
    ∧ ((attachAll [1, 2] svc { World.empty with closed := [1] }).1.writerPass env [120]
        (attachAll [1, 2] svc { World.empty with closed := [1] }).2).2.1.writesTo 2 = []
    ∧ ((attachAll [1, 2] svc { World.empty with closed := [1] }).1.writerPass env [120]
        (attachAll [1, 2] svc { World.empty with closed := [1] }).2).2.1.received 2
        ≠ [120] ++ [10] :=
  ⟨rfl, rfl, rfl, by
    intro h
    have h2 : ([] : Bytes) = [120, 10] := h
    cases h2⟩

theorem pipeWrite_recv (env : Nat → Outcome) (s : Sink) (p : Bytes) (g : World) :
    (∃ extra, (pipeWrite env s p g).1.recv = g.recv ++ extra ∧ ∀ e ∈ extra, e.1 = s)
    ∧ ∀ x ∈ g.closed, x ∈ (pipeWrite env s p g).1.closed := by
  unfold pipeWrite
  by_cases hs : s ∈ g.closed
  · simp only [if_pos hs]
    exact ⟨⟨[], by simp, by simp⟩, fun x hx => hx⟩
  · simp only [if_neg hs]
    cases env g.tick with
    | ok => exact ⟨⟨[(s, p)], rfl, by simp⟩, fun x hx => hx⟩
    | fails n =>
      simp only []
      split
      · exact ⟨⟨[(s, p)], rfl, by simp⟩, fun x hx => hx⟩
      · exact ⟨⟨[(s, p.take n)], rfl, by simp⟩, fun x hx => List.mem_cons_of_mem _ hx⟩
    | blocks n =>
      simp only []
      split
      · exact ⟨⟨[(s, p)], rfl, by simp⟩, fun x hx => hx⟩
      · exact ⟨⟨[(s, p.take n)], rfl, by simp⟩, fun x hx => hx⟩

theorem writeEach_closed_stops (env : Nat → Outcome) (p : Bytes) (pre post : List Sink)
    (f : Sink) :
    ∀ g : World, f ∈ g.closed →
      (∃ extra, (writeEach env (pre ++ f :: post) p g).1.recv = g.recv ++ extra
          ∧ ∀ e ∈ extra, e.1 ∈ pre)
      ∧ (∀ x ∈ g.closed, x ∈ (writeEach env (pre ++ f :: post) p g).1.closed)
      ∧ (writeEach env (pre ++ f :: post) p g).2 ≠ Written.done := by
  induction pre with
  | nil =>
    intro g hf
    simp only [List.nil_append, writeEach, pipeWrite, if_pos hf]
    exact ⟨⟨[], by simp, by simp⟩, fun x hx => hx, by simp⟩
  | cons s rest ih =>
    intro g hf
    obtain ⟨⟨ex, hex, hsink⟩, hcl⟩ := pipeWrite_recv env s p g
    rw [List.cons_append, writeEach]
    rcases hw : pipeWrite env s p g with ⟨g1, r⟩
    rw [hw] at hex hcl
    simp only [] at hex hcl
    cases r with
    | done =>
      simp only []
      obtain ⟨⟨ex2, hex2, hsink2⟩, hcl2, hne⟩ := ih g1 (hcl f hf)
      refine ⟨⟨ex ++ ex2, by rw [hex2, hex, List.append_assoc], ?_⟩,
        fun x hx => hcl2 x (hcl x hx), hne⟩
      intro e he
      rcases List.mem_append.mp he with h1 | h2
      · rw [hsink e h1]; exact List.mem_cons_self _ _
      · exact List.mem_cons_of_mem _ (hsink2 e h2)
    | error =>
      simp only []
      refine ⟨⟨ex, hex, fun e he => ?_⟩, hcl, by simp⟩
      rw [hsink e he]; exact List.mem_cons_self _ _
    | stuck =>
      simp only []
      refine ⟨⟨ex, hex, fun e he => ?_⟩, hcl, by simp⟩
      rw [hsink e he]; exact List.mem_cons_self _ _

theorem EventStream.writerPass_world (env : Nat → Outcome) (w : EventStream) (L : Bytes)
    (g : World) :
    (w.writerPass env L g).2.1 = (writeEach env w.targets L g).1
    ∨ (w.writerPass env L g).2.1
        = (writeEach env w.targets [10] (writeEach env w.targets L g).1).1 := by
  unfold EventStream.writerPass EventStream.targets
  cases hs : w.swapOut with
  | some m =>
    simp only [multiWriter.Write]
    rcases h1 : writeEach env m.writers L g with ⟨g1, r1⟩
    cases r1 with
    | stuck => left; rfl
    | done =>
      right
      simp only []
      rcases h2 : writeEach env m.writers [10] g1 with ⟨g2, r2⟩
      cases r2 <;> rfl
    | error =>
      right
      simp only []
      rcases h2 : writeEach env m.writers [10] g1 with ⟨g2, r2⟩
      cases r2 <;> rfl
  | none =>
    cases ho : w.out with
    | none => left; simp [ho, writeEach]
    | some m =>
      simp only [ho, multiWriter.Write]
      rcases h1 : writeEach env m.writers L g with ⟨g1, r1⟩
      cases r1 with
      | stuck => left; rfl
      | done =>
        right
        simp only []
        rcases h2 : writeEach env m.writers [10] g1 with ⟨g2, r2⟩
        cases r2 <;> rfl
      | error =>
        right
        simp only []
        rcases h2 : writeEach env m.writers [10] g1 with ⟨g2, r2⟩
        cases r2 <;> rfl

/-- Whatever the readers do: when the worker's sinks are distinct and one of them is
closed, a pass writes nothing, neither of the line nor of the newline, to the sinks
that come after the closed one in the list. -/
theorem EventStream.writerPass_starves_after_closed (env : Nat → Outcome) (w : EventStream)
    (g : World) (L : Bytes) (pre post : List Sink) (f : Sink)
    (ht : w.targets = pre ++ f :: post) (hnd : (pre ++ f :: post).Nodup)
    (hf : f ∈ g.closed) :
    ∀ s ∈ post, (w.writerPass env L g).2.1.writesTo s = g.writesTo s := by
  intro s hs
  have hnot : s ∉ pre := fun hmem =>
    (List.nodup_append.mp hnd).2.2 hmem (List.mem_cons_of_mem _ hs)
  have hfilter : ∀ (g0 g1 : World) (extra : List (Sink × Bytes)),
      g1.recv = g0.recv ++ extra → (∀ e ∈ extra, e.1 ∈ pre) →
      g1.writesTo s = g0.writesTo s := by
    intro g0 g1 extra hrecv hex
    have : extra.filter (fun e => e.1 == s) = [] := by
      rw [List.filter_eq_nil_iff]
      intro e he hes
      exact hnot (by rw [← (beq_iff_eq.mp hes)]; exact hex e he)
    simp [World.writesTo, hrecv, List.filter_append, this]
  obtain ⟨⟨ex1, hex1, hs1⟩, hcl1, _⟩ := writeEach_closed_stops env L pre post f g hf
  obtain ⟨⟨ex2, hex2, hs2⟩, _, _⟩ :=
    writeEach_closed_stops env [10] pre post f _ (hcl1 f hf)
  rcases EventStream.writerPass_world env w L g with h | h
  · rw [h, ht]
    exact hfilter _ _ ex1 hex1 hs1
  · rw [h, ht, hfilter _ _ ex2 hex2 hs2]
    exact hfilter _ _ ex1 hex1 hs1

/-! ## Detach -/

/-- C2: with the listener list [1, 2], reached by two attach calls, detach of sink 1
does not complete: after the list has been replaced by [2] the loop goes on to index
1 and the index expression panics, index 1 out of range for length 1. -/
theorem detach_first_of_two_panics :
    run [Op.attach 1, Op.attach 2, Op.detach 1] svc World.empty
      = .error (Panic.indexOutOfRange 1 1) := by
  rfl

/-- C3: after attach 1, attach 2, detach 2, detach 1, attach 3 (no panic on the way)
the listener list is [3], but `swapOut` still holds the multi-writer over the closed
sink 1, so the sinks the worker writes the next line to are [1]: the pass for the
next line writes nothing to the new sink 3. -/
theorem stale_swapOut_outlives_sole_detach (env : Nat → Outcome) :
    ∃ w g, run [Op.attach 1, Op.attach 2, Op.detach 2, Op.detach 1, Op.attach 3]
        svc World.empty = .ok (w, g)
      ∧ w.logReaders = some [3] ∧ w.targets = [1] ∧ g.closed = [1]
      ∧ (w.writerPass env [120] g).2.1.writesTo 3 = []
      ∧ (w.writerPass env [120] g).1.out = some (MultiWriter [1]) :=
  ⟨_, _, rfl, rfl, rfl, rfl, rfl, rfl⟩

/-- C6: after attach 1, attach 2, detach 2 the listener list is [1]; a second detach
of sink 2, which is not in the list, is not a no-op: it empties the listener list and
sets `out` to nil, so sink 1 is removed. -/
theorem detach_absent_sink_removes_sole_sink :
    ∃ w g w1 g1, run [Op.attach 1, Op.attach 2, Op.detach 2] svc World.empty = .ok (w, g)
      ∧ w.logReaders = some [1] ∧ w.out = some (MultiWriter [1])
      ∧ w.detach 2 g = .ok (w1, g1)
      ∧ w1.logReaders = none ∧ w1.out = none ∧ w1.log = none :=
  ⟨_, _, _, _, rfl, rfl, rfl, rfl, rfl, rfl, rfl⟩

/-- C7: with the listener list [1, 2], detach of sink 2 completes and removes it from
the list, but the writer end of sink 2 is not closed: no pipe is closed, and a write
to sink 2 afterwards still succeeds when its reader reads. -/
theorem detach_among_two_leaves_writer_open :
    ∃ w g, run [Op.attach 1, Op.attach 2, Op.detach 2] svc World.empty = .ok (w, g)
      ∧ w.logReaders = some [1] ∧ g.closed = []
      ∧ (pipeWrite (fun _ => Outcome.ok) 2 [120] g).2 = Written.done :=
  ⟨_, _, rfl, rfl, rfl, rfl⟩

theorem EventStream.lenReaders_eq (w : EventStream) :
    w.lenReaders = (w.logReaders.getD []).length := by
  unfold EventStream.lenReaders
  cases w.logReaders <;> rfl

theorem EventStream.length_newList (rs : List Sink) (i : Nat) (hi : i < rs.length) :
    (EventStream.newList rs i).length + 1 = rs.length := by
  unfold EventStream.newList
  simp only []
  split_ifs with h0 h1 h1
  all_goals
    simp only [List.length_append, List.length_take, List.length_drop, List.length_nil]
    omega

theorem EventStream.detachBody_spec (out : Sink) (w : EventStream) (i : Nat) :
    (∃ len, len ≤ i ∧ EventStream.detachBody out w i = .error (Panic.indexOutOfRange i len))
    ∨ (i < w.lenReaders ∧ ∃ w1, EventStream.detachBody out w i = .ok w1
        ∧ ((w.logReaders.getD [])[i]? = some out → w1.lenReaders + 1 = w.lenReaders)
        ∧ ((w.logReaders.getD [])[i]? ≠ some out → w1 = w)) := by
  rw [EventStream.lenReaders_eq]
  cases hget : (w.logReaders.getD [])[i]? with
  | none =>
    left
    exact ⟨_, List.getElem?_eq_none_iff.mp hget, by simp [EventStream.detachBody, hget]⟩
  | some r =>
    right
    have hi : i < (w.logReaders.getD []).length := by
      by_contra hcon
      rw [List.getElem?_eq_none_iff.mpr (Nat.le_of_not_lt hcon)] at hget
      cases hget
    refine ⟨hi, ?_⟩
    by_cases hr : r = out
    · subst hr
      refine ⟨{ w with logReaders := some (EventStream.newList (w.logReaders.getD []) i),
                       swapOut := some (MultiWriter
                         (EventStream.newList (w.logReaders.getD []) i)) },
        by simp [EventStream.detachBody, hget], ?_, fun hne => absurd rfl hne⟩
      intro _
      simp only [EventStream.lenReaders]
      exact EventStream.length_newList _ i hi
    · refine ⟨w, by simp [EventStream.detachBody, hget, hr], ?_, fun _ => rfl⟩
      intro heq
      exact absurd (Option.some.inj heq) hr

theorem EventStream.detachLoop_panics (out : Sink) (k : Nat) :
    ∀ (i : Nat) (w : EventStream), 0 < k →
      (w.lenReaders < i + k
        ∨ (w.lenReaders = i + k
            ∧ ∃ j, i ≤ j ∧ j + 1 < i + k ∧ (w.logReaders.getD [])[j]? = some out)) →
      ∃ j len, len ≤ j
        ∧ EventStream.detachLoop out (List.range' i k) w
            = .error (Panic.indexOutOfRange j len) := by
  induction k with
  | zero => intro i w hk; exact absurd hk (Nat.lt_irrefl 0)
  | succ k ih =>
    intro i w _ hcase
    rw [List.range'_succ, EventStream.detachLoop]
    rcases EventStream.detachBody_spec out w i with ⟨len, hle, herr⟩ | ⟨hi, w1, hok, hm, hn⟩
    · exact ⟨i, len, hle, by rw [herr]⟩
    · rw [hok]
      have hlen1 : w1.lenReaders ≤ w.lenReaders := by
        by_cases hget : (w.logReaders.getD [])[i]? = some out
        · have := hm hget; omega
        · rw [hn hget]
      rcases hcase with hlt | ⟨heq, j, hij, hjk, hj⟩
      · exact ih (i + 1) w1 (by omega) (Or.inl (by omega))
      · by_cases hget : (w.logReaders.getD [])[i]? = some out
        · have := hm hget
          exact ih (i + 1) w1 (by omega) (Or.inl (by omega))
        · have hne : i ≠ j := fun e => hget (e ▸ hj)
          rw [hn hget]
          exact ih (i + 1) w (by omega) (Or.inr ⟨by omega, j, by omega, by omega, hj⟩)

theorem EventStream.detachLoop_absent (out : Sink) (w : EventStream)
    (habs : out ∉ w.logReaders.getD []) (k : Nat) :
    ∀ i, i + k ≤ w.lenReaders →
      EventStream.detachLoop out (List.range' i k) w = .ok w := by
  induction k with
  | zero => intro i _; rfl
  | succ k ih =>
    intro i hik
    rw [List.range'_succ, EventStream.detachLoop]
    rcases EventStream.detachBody_spec out w i with ⟨len, hle, herr⟩ | ⟨_, w1, hok, _, hn⟩
    · have hnone : (w.logReaders.getD [])[i]? ≠ none := by
        rw [Ne, List.getElem?_eq_none_iff, ← EventStream.lenReaders_eq]
        omega
      simp only [EventStream.detachBody] at herr
      split at herr
      · rename_i hget; exact absurd hget hnone
      · split at herr <;> cases herr
    · have hne : (w.logReaders.getD [])[i]? ≠ some out := fun hget =>
        habs (List.getElem?_mem hget)
      rw [hok, hn hne]
      exact ih (i + 1) (by omega)

/-- A detach of a sink that is not in the listener list changes nothing when the list
does not hold exactly one sink. -/
theorem EventStream.detach_absent_of_not_sole (w : EventStream) (g : World) (out : Sink)
    (habs : out ∉ w.logReaders.getD []) (hlen : w.lenReaders ≠ 1) :
    w.detach out g = .ok (w, g) := by
  unfold EventStream.detach
  rw [if_neg hlen, List.range_eq_range',
    EventStream.detachLoop_absent out w habs w.lenReaders 0 (by omega)]

/-- A detach that completes while the list does not hold exactly one sink closes no
pipe and writes nothing. -/
theorem EventStream.detach_of_not_sole_world (w w1 : EventStream) (g g1 : World) (out : Sink)
    (hlen : w.lenReaders ≠ 1) (h : w.detach out g = .ok (w1, g1)) : g1 = g := by
  unfold EventStream.detach at h
  rw [if_neg hlen] at h
  split at h
  · cases h
  · cases h; rfl

/-- C5: whenever the listener list holds the sink to detach at a position other than
the last, `EventStream.detach` does not run to completion: it panics on an index
expression `w.logReaders[j]` whose index `j` is not below the length `len` that the
list has at that time. -/
theorem detach_before_last_panics (w : EventStream) (g : World) (out : Sink)
    (pre post : List Sink) (h : w.logReaders = some (pre ++ out :: post))
    (hpost : post ≠ []) :
    ∃ j len, len ≤ j ∧ w.detach out g = .error (Panic.indexOutOfRange j len) := by
  have hpos : 0 < post.length := List.length_pos.mpr hpost
  have hlen : w.lenReaders = pre.length + 1 + post.length := by
    simp [EventStream.lenReaders, h]; omega
  have hget : (w.logReaders.getD [])[pre.length]? = some out := by
    rw [h, Option.getD_some, List.getElem?_append_right (Nat.le_refl _)]
    simp
  obtain ⟨j, len, hle, herr⟩ :=
    EventStream.detachLoop_panics out w.lenReaders 0 w (by omega)
      (Or.inr ⟨by omega, pre.length, by omega, by omega, hget⟩)
  refine ⟨j, len, hle, ?_⟩
  unfold EventStream.detach
  rw [if_neg (by omega), List.range_eq_range', herr]

theorem detach_before_last_panics_witness :
    ∃ j len, len ≤ j
      ∧ (NewAttach svc World.empty).1.Detach
          (NewAttach (NewAttach svc World.empty).2.1 (NewAttach svc World.empty).2.2).2.1
          (NewAttach (NewAttach svc World.empty).2.1 (NewAttach svc World.empty).2.2).2.2
        = .error (Panic.indexOutOfRange j len) :=
  detach_before_last_panics
    (NewAttach (NewAttach svc World.empty).2.1 (NewAttach svc World.empty).2.2).2.1
    (NewAttach (NewAttach svc World.empty).2.1 (NewAttach svc World.empty).2.2).2.2
    0 [] [1] rfl (by decide)

end Testrument
